import Mathlib

/-!
Shallow embedding of the `colourimetry_pipeline` Python package
(`datasets.py`, `spectrum_parser.py`, `analysis.py`, `pipeline.py`).

Python dicts are modelled as association lists with Python's dict
semantics: inserting an existing key replaces the value in place
(keeping the key's original position), inserting a new key appends it.
Machine floats are modelled as real numbers; wavelengths (which the
source compares with `% 1 == 0`) are modelled as rationals so that the
integrality test is decidable.  External collaborators (the `specio`
file reader and the `colour` science library) are modelled as inputs or
function parameters, exactly as the spec scopes them out.
-/

namespace Colourimetry

/-! ### Python dict model: association lists with insert-or-replace -/

/-- First-some choice on options; `oget a b` is `a` unless `a` is `none`. -/
def oget {α : Type} : Option α → Option α → Option α
  | some a, _ => some a
  | none, b => b

/-- Dict lookup: value of the first pair with the given key. -/
def alookup {κ α : Type} [DecidableEq κ] : List (κ × α) → κ → Option α
  | [], _ => none
  | p :: rest, k => if p.1 = k then some p.2 else alookup rest k

/-- Python `d[k] = v`: replace in place if the key exists, else append. -/
def dictSet {κ α : Type} [DecidableEq κ] : List (κ × α) → κ → α → List (κ × α)
  | [], k, v => [(k, v)]
  | p :: rest, k, v => if p.1 = k then (k, v) :: rest else p :: dictSet rest k v

/-- Python `d.update(w)`: apply a list of writes in order. -/
def dictApply {κ α : Type} [DecidableEq κ] (l : List (κ × α)) (w : List (κ × α)) :
    List (κ × α) :=
  w.foldl (fun acc p => dictSet acc p.1 p.2) l

/-- The keys of an association list, in order. -/
def keysOf {κ α : Type} (l : List (κ × α)) : List κ := l.map Prod.fst

/-- The last value written for a key in a write list. -/
def lastWrite {κ α : Type} [DecidableEq κ] (w : List (κ × α)) (k : κ) : Option α :=
  alookup w.reverse k

section DictLemmas

variable {κ α : Type} [DecidableEq κ]

lemma oget_none_left (b : Option α) : oget none b = b := rfl

lemma oget_assoc (a b c : Option α) : oget (oget a b) c = oget a (oget b c) := by
  cases a <;> cases b <;> rfl

lemma oget_self (a b : Option α) : oget a (oget a b) = oget a b := by
  cases a <;> rfl

lemma alookup_append (l₁ l₂ : List (κ × α)) (k : κ) :
    alookup (l₁ ++ l₂) k = oget (alookup l₁ k) (alookup l₂ k) := by
  induction l₁ with
  | nil => rfl
  | cons p rest ih =>
    by_cases h : p.1 = k
    · simp [alookup, h, oget]
    · simp [alookup, h, ih]

lemma alookup_eq_none_of_not_mem (l : List (κ × α)) (k : κ) (h : k ∉ keysOf l) :
    alookup l k = none := by
  induction l with
  | nil => rfl
  | cons p rest ih =>
    simp only [keysOf, List.map_cons, List.mem_cons, not_or] at h
    have hp : p.1 ≠ k := fun hc => h.1 hc.symm
    simp only [alookup, if_neg hp]
    exact ih (by simpa [keysOf] using h.2)

lemma keysOf_cons (p : κ × α) (l : List (κ × α)) :
    keysOf (p :: l) = p.1 :: keysOf l := rfl

lemma mem_keysOf_cons {k' : κ} {p : κ × α} {l : List (κ × α)} :
    k' ∈ keysOf (p :: l) ↔ k' = p.1 ∨ k' ∈ keysOf l := by
  rw [keysOf_cons, List.mem_cons]

lemma alookup_dictSet (l : List (κ × α)) (k : κ) (v : α) (k' : κ) :
    alookup (dictSet l k v) k' = if k' = k then some v else alookup l k' := by
  induction l with
  | nil =>
    by_cases h : k' = k
    · simp [dictSet, alookup, h]
    · simp [dictSet, alookup, h, if_neg (show ¬k = k' from fun hc => h hc.symm)]
  | cons p rest ih =>
    by_cases hp : p.1 = k
    · by_cases h : k' = k
      · simp [dictSet, alookup, hp, h]
      · simp [dictSet, alookup, hp, h,
          if_neg (show ¬k = k' from fun hc => h hc.symm),
          if_neg (show ¬p.1 = k' from fun hc => h (hp ▸ hc).symm)]
    · simp only [dictSet, if_neg hp]
      by_cases hq : p.1 = k'
      · have hk'k : ¬k' = k := fun hc => hp (hc ▸ hq)
        simp only [alookup, if_pos hq, if_neg hk'k]
      · simp only [alookup, if_neg hq, ih]

lemma keysOf_dictSet (l : List (κ × α)) (k : κ) (v : α) :
    keysOf (dictSet l k v) = if k ∈ keysOf l then keysOf l else keysOf l ++ [k] := by
  induction l with
  | nil => simp [dictSet, keysOf]
  | cons p rest ih =>
    by_cases hp : p.1 = k
    · have h1 : dictSet (p :: rest) k v = (k, v) :: rest := by simp [dictSet, hp]
      have h2 : k ∈ keysOf (p :: rest) := mem_keysOf_cons.mpr (Or.inl hp.symm)
      rw [h1, if_pos h2, keysOf_cons, keysOf_cons]
      simp [hp]
    · rw [show dictSet (p :: rest) k v = p :: dictSet rest k v from by
        simp [dictSet, hp], keysOf_cons, ih]
      by_cases hm : k ∈ keysOf rest
      · rw [if_pos hm, if_pos (mem_keysOf_cons.mpr (Or.inr hm)), keysOf_cons]
      · rw [if_neg hm, if_neg (fun hc => by
          rcases mem_keysOf_cons.mp hc with h | h
          · exact hp h.symm
          · exact hm h), keysOf_cons]
        rfl

lemma mem_keysOf_dictSet (l : List (κ × α)) (k : κ) (v : α) (k' : κ) :
    k' ∈ keysOf (dictSet l k v) ↔ k' ∈ keysOf l ∨ k' = k := by
  rw [keysOf_dictSet]
  by_cases hm : k ∈ keysOf l
  · rw [if_pos hm]
    constructor
    · exact Or.inl
    · rintro (h | rfl)
      · exact h
      · exact hm
  · rw [if_neg hm]
    simp

lemma nodup_keysOf_dictSet (l : List (κ × α)) (k : κ) (v : α)
    (h : (keysOf l).Nodup) : (keysOf (dictSet l k v)).Nodup := by
  rw [keysOf_dictSet]
  by_cases hm : k ∈ keysOf l
  · rwa [if_pos hm]
  · rw [if_neg hm]
    simp [List.nodup_append, h, hm]

lemma dictApply_nil (l : List (κ × α)) : dictApply l [] = l := rfl

lemma dictApply_cons (l : List (κ × α)) (p : κ × α) (w : List (κ × α)) :
    dictApply l (p :: w) = dictApply (dictSet l p.1 p.2) w := rfl

lemma dictApply_append (l w₁ w₂ : List (κ × α)) :
    dictApply l (w₁ ++ w₂) = dictApply (dictApply l w₁) w₂ := by
  simp [dictApply, List.foldl_append]

lemma lastWrite_cons (p : κ × α) (w : List (κ × α)) (k : κ) :
    lastWrite (p :: w) k = oget (lastWrite w k) (if p.1 = k then some p.2 else none) := by
  simp only [lastWrite, List.reverse_cons, alookup_append]
  rfl

lemma alookup_dictApply (l w : List (κ × α)) (k : κ) :
    alookup (dictApply l w) k = oget (lastWrite w k) (alookup l k) := by
  induction w generalizing l with
  | nil => rfl
  | cons p w' ih =>
    rw [dictApply_cons, ih, lastWrite_cons, oget_assoc]
    congr 1
    rw [alookup_dictSet]
    by_cases h : k = p.1
    · simp [h, oget]
    · rw [if_neg h, if_neg (show ¬p.1 = k from fun hc => h hc.symm)]
      rfl

lemma mem_keysOf_dictApply (l w : List (κ × α)) (k : κ) :
    k ∈ keysOf (dictApply l w) ↔ k ∈ keysOf l ∨ k ∈ keysOf w := by
  induction w generalizing l with
  | nil => simp [dictApply, keysOf]
  | cons p w' ih =>
    rw [dictApply_cons, ih, mem_keysOf_dictSet, mem_keysOf_cons]
    tauto

lemma keysOf_dictApply_of_subset (l w : List (κ × α))
    (h : ∀ k ∈ keysOf w, k ∈ keysOf l) : keysOf (dictApply l w) = keysOf l := by
  induction w generalizing l with
  | nil => rfl
  | cons p w' ih =>
    rw [dictApply_cons]
    have hk : keysOf (dictSet l p.1 p.2) = keysOf l := by
      rw [keysOf_dictSet, if_pos (h p.1 (mem_keysOf_cons.mpr (Or.inl rfl)))]
    rw [ih _ (fun k hk' => by
      rw [hk]
      exact h k (mem_keysOf_cons.mpr (Or.inr hk'))), hk]

lemma nodup_keysOf_dictApply (l w : List (κ × α)) (h : (keysOf l).Nodup) :
    (keysOf (dictApply l w)).Nodup := by
  induction w generalizing l with
  | nil => exact h
  | cons p w' ih => exact ih _ (nodup_keysOf_dictSet _ _ _ h)

lemma assoc_ext : ∀ l₁ : List (κ × α), (keysOf l₁).Nodup →
    ∀ l₂ : List (κ × α), keysOf l₁ = keysOf l₂ →
    (∀ k, alookup l₁ k = alookup l₂ k) → l₁ = l₂ := by
  intro l₁
  induction l₁ with
  | nil =>
    intro _ l₂ hk _
    cases l₂ with
    | nil => rfl
    | cons q l₂' => simp [keysOf] at hk
  | cons p l₁' ih =>
    intro hnd l₂ hk hl
    cases l₂ with
    | nil => simp [keysOf] at hk
    | cons q l₂' =>
      rw [keysOf_cons, keysOf_cons] at hk
      have hpq : p.1 = q.1 := (List.cons.injEq _ _ _ _ ▸ hk).1
      have hkt : keysOf l₁' = keysOf l₂' := (List.cons.injEq _ _ _ _ ▸ hk).2
      have hv : p.2 = q.2 := by
        have h1 := hl p.1
        simp only [alookup, if_pos rfl] at h1
        rw [if_pos hpq.symm] at h1
        exact Option.some.inj h1
      rw [keysOf_cons, List.nodup_cons] at hnd
      have heq : l₁' = l₂' := by
        refine ih hnd.2 l₂' hkt (fun k => ?_)
        by_cases hkp : k = p.1
        · subst hkp
          rw [alookup_eq_none_of_not_mem _ _ hnd.1,
            alookup_eq_none_of_not_mem _ _ (hkt ▸ hnd.1)]
        · have h1 := hl k
          simp only [alookup] at h1
          rwa [if_neg (fun hc : p.1 = k => hkp hc.symm),
            if_neg (fun hc : q.1 = k => hkp (hpq ▸ hc.symm : k = p.1))] at h1
      cases p
      cases q
      simp only at hpq hv
      rw [hpq, hv, heq]

lemma dictApply_replay (l w : List (κ × α)) (h : (keysOf l).Nodup) :
    dictApply (dictApply l w) w = dictApply l w := by
  refine assoc_ext _ (nodup_keysOf_dictApply _ _ (nodup_keysOf_dictApply _ _ h)) _ ?_ ?_
  · exact keysOf_dictApply_of_subset _ _
      (fun k hk => (mem_keysOf_dictApply _ _ _).mpr (Or.inr hk))
  · intro k
    rw [alookup_dictApply, alookup_dictApply, oget_self]

end DictLemmas

/-! ### `spectrum_parser.py`: SpectralRecord and SpcFileParser.parse -/

/-- `SpectralRecord`: one spectral acquisition (wavelength, absorbance,
transmittance).  Wavelengths are rationals (the source tests `% 1 == 0`),
spectral values are reals. -/
structure SpectralRecord where
  wavelengths : List ℚ
  absorbances : List ℝ
  transmittances : List ℝ

/-- `SpectralRecord.as_pairs`: wavelength/value pairs for the requested
quantity (`"absorbance"` or `"transmittance"`; the pipeline only ever
passes these two keys). -/
def SpectralRecord.as_pairs (r : SpectralRecord) (quantity : String) : List (ℚ × ℝ) :=
  r.wavelengths.zip (if quantity = "absorbance" then r.absorbances else r.transmittances)

/-- The parser's `mode` argument: `'A'`, `'T'` or `'R'`. -/
inductive SpcMode
  | A
  | T
  | R
deriving DecidableEq

/-- The low clip `np.clip(x, 1e-12, None)` applied before `log10`. -/
noncomputable def clipLow (x : ℝ) : ℝ := max x 1e-12

/-- The absorbance series derived from the raw amplitudes per mode. -/
noncomputable def parseAbsorbances (mode : SpcMode) (amplitudes : List ℝ) : List ℝ :=
  match mode with
  | .A => amplitudes
  | .T => amplitudes.map (fun t => -Real.logb 10 (clipLow t))
  | .R => amplitudes.map (fun a => 1 - a)

/-- The transmittance series derived from the raw amplitudes per mode. -/
noncomputable def parseTransmittances (mode : SpcMode) (amplitudes : List ℝ) : List ℝ :=
  match mode with
  | .A => amplitudes.map (fun a => (10 : ℝ) ^ (-a))
  | .T => amplitudes
  | .R => (amplitudes.map (fun a => 1 - a)).map (fun a => (10 : ℝ) ^ (-a))

/-- The wavelength/(absorbance, transmittance) samples before filtering. -/
noncomputable def parseTriples (mode : SpcMode) (wavelengths : List ℚ)
    (amplitudes : List ℝ) : List (ℚ × ℝ × ℝ) :=
  wavelengths.zip ((parseAbsorbances mode amplitudes).zip
    (parseTransmittances mode amplitudes))

/-- The selector `(wl % 1 == 0) & (wl >= 250) & (wl <= 800)`. -/
def wavelengthSelector (t : ℚ × ℝ × ℝ) : Bool :=
  decide (t.1.den = 1 ∧ 250 ≤ t.1 ∧ t.1 ≤ 800)

/-- The selected samples, sorted ascending by wavelength (`argsort`). -/
noncomputable def sortedTriples (mode : SpcMode) (wavelengths : List ℚ)
    (amplitudes : List ℝ) : List (ℚ × ℝ × ℝ) :=
  ((parseTriples mode wavelengths amplitudes).filter wavelengthSelector).insertionSort
    (fun t t' => t.1 ≤ t'.1)

/-- `SpcFileParser.parse`, with the external `specio` reader's output
(`spectra.wavelength`, `spectra.amplitudes`) supplied as arguments.
Mode `A`: amplitudes are absorbances, transmittance `10 ** (-A)`;
mode `T`: amplitudes are transmittances, absorbance `-log10(clip(t))`;
mode `R`: absorbance `1 - amplitude`, transmittance `10 ** (-A)`.
Then samples are restricted to integer wavelengths in `[250, 800]` and
sorted ascending by wavelength. -/
noncomputable def SpcFileParser.parse (mode : SpcMode) (wavelengths : List ℚ)
    (amplitudes : List ℝ) : SpectralRecord :=
  { wavelengths := (sortedTriples mode wavelengths amplitudes).map (fun t => t.1)
    absorbances := (sortedTriples mode wavelengths amplitudes).map (fun t => t.2.1)
    transmittances := (sortedTriples mode wavelengths amplitudes).map (fun t => t.2.2) }

/-! ### `datasets.py`: DatasetEntry, DatasetCollection, averaged -/

/-- `DatasetEntry`: stored spectrum plus metadata (metadata values are
modelled as strings; the claims never inspect them). -/
structure DatasetEntry where
  record : SpectralRecord
  measurement : String
  metadata : List (String × String)

/-- `DatasetCollection`: insertion-ordered dict from key to entry. -/
structure DatasetCollection where
  entries : List (String × DatasetEntry)

/-- Whether the first list is a leading segment of the second. -/
def beginsWith : List Char → List Char → Bool
  | [], _ => true
  | _ :: _, [] => false
  | s :: ss, c :: cs => if s = c then beginsWith ss cs else false

/-- The characters of a string before the first occurrence of the
separator (the whole string when the separator never occurs). -/
def takeUntilSep (sep : List Char) : List Char → List Char
  | [] => []
  | c :: rest => if beginsWith sep (c :: rest) then [] else c :: takeUntilSep sep rest

/-- The replicate root of a key: `key.split(suffix)[0]` when the suffix
is non-empty (Python's `suffix and suffix in key` guard; when the suffix
does not occur, `split` returns the whole key, so the branches agree). -/
def rootOf (sep key : String) : String :=
  if sep = "" then key else ⟨takeUntilSep sep.data key.data⟩

/-- One step of the `defaultdict(list)` grouping in `averaged`. -/
def groupInsert : List (String × List DatasetEntry) → String → DatasetEntry →
    List (String × List DatasetEntry)
  | [], r, e => [(r, [e])]
  | (r', es) :: rest, r, e =>
    if r' = r then (r', es ++ [e]) :: rest else (r', es) :: groupInsert rest r e

/-- The `grouped` dict of `DatasetCollection.averaged`: entries grouped by
replicate root, in first-appearance order. -/
def groupByRoot (sep : String) (entries : List (String × DatasetEntry)) :
    List (String × List DatasetEntry) :=
  entries.foldl (fun acc p => groupInsert acc (rootOf sep p.1) p.2) []

/-- `np.stack(rows).mean(axis=0)`: element-wise arithmetic mean of
equal-length rows (numpy rejects ragged input, so only the equal-length
case is ever reached). -/
def elementwiseMean {α : Type} [DivisionRing α] (rows : List (List α)) : List α :=
  match rows with
  | [] => []
  | r :: _ => (List.range r.length).map
      (fun i => (rows.map (fun row => row.getD i 0)).sum / (rows.length : α))

/-- The multi-replicate branch of `averaged`: mean wavelengths, mean
transmittances, absorbance recomputed as `-log10(clip(mean))`, metadata
copied from the first replicate. -/
noncomputable def mergeEntries (es : List DatasetEntry) : DatasetEntry :=
  let meanT := elementwiseMean (es.map (fun e => e.record.transmittances))
  { record :=
      { wavelengths := elementwiseMean (es.map (fun e => e.record.wavelengths))
        absorbances := meanT.map (fun v => -Real.logb 10 (clipLow v))
        transmittances := meanT }
    measurement := "transmittance"
    metadata := (es.head?.map (fun e => e.metadata)).getD [] }

/-- Per-group body of `averaged`: a single replicate passes through
unchanged, several replicates are merged. -/
noncomputable def averageGroup : List DatasetEntry → DatasetEntry
  | [e] => e
  | es => mergeEntries es

/-- `DatasetCollection.averaged`: group keys by replicate root and
average each group (the source's default separator is `"#"`; callers
here always pass it explicitly). -/
noncomputable def DatasetCollection.averaged (c : DatasetCollection)
    (sep : String) : DatasetCollection :=
  ⟨(groupByRoot sep c.entries).map (fun g => (g.1, averageGroup g.2))⟩

/-- `DatasetCollection.extend`: `self.entries.update(other.entries)`. -/
def DatasetCollection.extend (c other : DatasetCollection) : DatasetCollection :=
  ⟨dictApply c.entries other.entries⟩

/-! ### `analysis.py`: colour metrics and conversions -/

/-- `np.linalg.norm(a - b)` on equal-length vectors. -/
noncomputable def delta_e (sample_lab reference_lab : List ℝ) : ℝ :=
  Real.sqrt (((sample_lab.zipWith (fun a b => a - b) reference_lab).map
    (fun d => d ^ 2)).sum)

/-- Python slice `lab[1:3]`: the (a*, b*) components. -/
def slice13 (lab : List ℝ) : List ℝ := (lab.drop 1).take 2

/-- `np.linalg.norm(sample_lab[1:3] - reference_lab[1:3])`. -/
noncomputable def delta_c (sample_lab reference_lab : List ℝ) : ℝ :=
  delta_e (slice13 sample_lab) (slice13 reference_lab)

/-- `np.clip(x, 0, 1)` on one channel. -/
noncomputable def clip01 (x : ℝ) : ℝ := min (max x 0) 1

/-- The in-range test applied by `spectrum_to_xyz` before integration. -/
def inIntegrationRange (p : ℚ × ℝ) : Bool := decide (360 ≤ p.1 ∧ p.1 ≤ 800)

/-- The transmittance series handed to the colour library: out-of-range
wavelengths dropped, absorbance converted by `10 ** (-value)` when the
`absorbance` flag is set, then collected into a wavelength-keyed dict
(`dict(zip(wavelengths, transmittance))`). -/
noncomputable def transmittanceSd (spectrum : List (ℚ × ℝ)) (absorbance : Bool) :
    List (ℚ × ℝ) :=
  let kept := spectrum.filter inIntegrationRange
  let pairs := if absorbance then kept.map (fun p => (p.1, (10 : ℝ) ^ (-p.2)))
    else kept
  dictApply [] pairs

/-- `spectrum_to_xyz`, with the external `colour` library calls
(`sd_to_XYZ` with the CIE 1931 2° observer and the chosen illuminant,
`XYZ_to_Lab`, `XYZ_to_sRGB`) supplied as function parameters.  Returns
`(rgb, lab, xyz)` with xyz scaled by `1/100` and rgb clipped to
`[0, 1]`. -/
noncomputable def spectrum_to_xyz (sdToXYZ : List (ℚ × ℝ) → ℝ × ℝ × ℝ)
    (xyzToLab xyzToSRGB : ℝ × ℝ × ℝ → ℝ × ℝ × ℝ)
    (spectrum : List (ℚ × ℝ)) (absorbance : Bool) :
    (ℝ × ℝ × ℝ) × (ℝ × ℝ × ℝ) × (ℝ × ℝ × ℝ) :=
  let raw := sdToXYZ (transmittanceSd spectrum absorbance)
  let xyz : ℝ × ℝ × ℝ := (raw.1 / 100, raw.2.1 / 100, raw.2.2 / 100)
  let lab := xyzToLab xyz
  let rgb0 := xyzToSRGB xyz
  ((clip01 rgb0.1, clip01 rgb0.2.1, clip01 rgb0.2.2), lab, xyz)

/-- Python 3 `round`: round-half-to-even on floats (the source calls
`int(round(val * 255))`). -/
noncomputable def pyRound (x : ℝ) : ℤ :=
  if Int.fract x = 1 / 2 then (if ⌊x⌋ % 2 = 0 then ⌊x⌋ else ⌊x⌋ + 1) else round x

/-- One lowercase hexadecimal digit character. -/
def hexDigitChar (n : ℕ) : Char :=
  if n < 10 then Char.ofNat (48 + n) else Char.ofNat (87 + n)

/-- `"{:02x}".format(n)` for the byte range `0 ≤ n < 256` that the
clipped, scaled channels produce. -/
def fmt02x (n : ℕ) : String :=
  String.mk [hexDigitChar (n / 16 % 16), hexDigitChar (n % 16)]

/-- `rgb_to_hex`: clip each channel to `[0, 1]`, scale by 255, round to
the nearest integer, render as two lowercase hex digits after `"#"`. -/
noncomputable def rgb_to_hex (rgb : List ℝ) : String :=
  "#" ++ String.join (rgb.map (fun v => fmt02x (pyRound (clip01 v * 255)).toNat))

/-! ### `pipeline.py`: ColourimetryPipeline

The external `colour` science library (`compute_colour_metrics`'s body,
`blackbody_illuminant`) is an out-of-scope collaborator; it is modelled
as a `ColourBackend` parameter and the illuminant objects as an
arbitrary type `Illum`.  Directory scanning is modelled by handing
`load_directories` each directory's name together with `none` (missing
directory, skipped with a warning) or `some` parsed collection. -/

/-- Output bundle of `compute_colour_metrics` per sample. -/
structure ColourMetrics where
  rgb : List ℝ
  lab : List ℝ
  xyz : List ℝ
  whiteness : ℝ
  tint : ℝ
  lightness : ℝ
  chroma : ℝ
  delta_e : ℝ
  delta_c : ℝ

/-- `ColourResult`: metrics plus the two derived percentage scores. -/
structure ColourResult where
  name : String
  metrics : ColourMetrics
  decolouring_percentage : ℝ
  white_distance : ℝ

/-- `DatasetGroup` config entity. -/
structure DatasetGroup where
  name : String
  source : String
  keys : List String
  extra_assignments : List (String × String)

/-- The configuration surface consulted by the pipeline methods. -/
structure NotebookConfig (Illum : Type) where
  illuminants : List (String × Illum)
  reference_lab : List ℝ

/-- The external colour-science backend used by the analysis methods. -/
structure ColourBackend (Illum : Type) where
  computeMetrics : List (ℚ × ℝ) → Bool → Illum → List ℝ → ColourMetrics
  blackbody : ℝ → Illum

/-- The mutable state of a `ColourimetryPipeline` instance. -/
structure PipelineState where
  raw_collections : List (String × DatasetCollection)
  all_data : DatasetCollection
  averaged_data : DatasetCollection
  groups : List (String × DatasetCollection)
  results : List (String × ColourResult)

/-- Replace the groups map of a state (the only field `build_groups`
writes). -/
def withGroups (s : PipelineState) (gr : List (String × DatasetCollection)) :
    PipelineState :=
  { s with groups := gr }

/-- `ColourimetryPipeline._compute_colour_distances`. -/
noncomputable def computeColourDistances (rgb : List ℝ) : ℝ × ℝ :=
  let reference_rgb : List ℝ := [68 / 255, 77 / 255, 55 / 255]
  ((rgb.sum - reference_rgb.sum) / (3 - reference_rgb.sum) * 100,
   (1 - rgb.sum / rgb.length) * 100)

/-- `ColourimetryPipeline._build_averaged_dataset`. -/
noncomputable def buildAveraged (s : PipelineState) : PipelineState :=
  match s.all_data.entries with
  | [] => s
  | _ :: _ => { s with averaged_data := s.all_data.averaged "#" }

/-- The body of one existing-directory iteration of `load_directories`:
store the collection under the directory name and extend `all_data`. -/
noncomputable def loadStep (s : PipelineState) (nm : String)
    (c : DatasetCollection) : PipelineState :=
  { s with
    raw_collections := dictSet s.raw_collections nm c
    all_data := s.all_data.extend c }

/-- The per-directory loop of `load_directories`: a missing directory
(`none`) is skipped with a warning, an existing one is loaded. -/
noncomputable def loadFold (dirs : List (String × Option DatasetCollection))
    (s : PipelineState) : PipelineState :=
  dirs.foldl (fun st d =>
    match d.2 with
    | none => st
    | some c => loadStep st d.1 c) s

/-- `ColourimetryPipeline.load_directories`: store each existing
directory's collection under its name, extend the `all_data` pool, then
rebuild the averaged pool. -/
noncomputable def load_directories (dirs : List (String × Option DatasetCollection))
    (s : PipelineState) : PipelineState :=
  buildAveraged (loadFold dirs s)

/-- The `collection_lookup` table of `build_groups`. -/
def sourcePools (s : PipelineState) (tag : String) : Option DatasetCollection :=
  if tag = "all" then some s.all_data
  else if tag = "averaged" then some s.averaged_data
  else none

/-- Split a character list at the first occurrence of the separator;
`none` when the separator never occurs. -/
def splitFirst (sepC : List Char) : List Char → Option (List Char × List Char)
  | [] => none
  | c :: rest =>
    if beginsWith sepC (c :: rest) then some ([], (c :: rest).drop sepC.length)
    else
      match splitFirst sepC rest with
      | none => none
      | some pr => some (c :: pr.1, pr.2)

/-- `descriptor.split(":", 1)`: `none` when no colon is present (the
`ValueError` branch, logged and skipped). -/
def parseDescriptor (d : String) : Option (String × String) :=
  match splitFirst [':'] d.data with
  | none => none
  | some pr => some (⟨pr.1⟩, ⟨pr.2⟩)

/-- The first loop of group assembly: listed keys found in the source
pool are copied over, missing keys are logged and skipped. -/
def buildSubsetBase (pool : DatasetCollection) (ks : List String) :
    List (String × DatasetEntry) :=
  ks.foldl (fun acc k =>
    match alookup pool.entries k with
    | some e => dictSet acc k e
    | none => acc) []

/-- The second loop of group assembly: extra assignments whose
descriptor parses and resolves are copied, the rest are logged and
skipped. -/
def buildSubsetExtras (lookupPool : String → Option DatasetCollection)
    (extras : List (String × String)) (base : List (String × DatasetEntry)) :
    List (String × DatasetEntry) :=
  extras.foldl (fun acc p =>
    match parseDescriptor p.2 with
    | none => acc
    | some sd =>
      match lookupPool sd.1 with
      | none => acc
      | some src =>
        match alookup src.entries sd.2 with
        | some e => dictSet acc p.1 e
        | none => acc) base

/-- The subset a single `DatasetGroup` assembles: listed keys found in
the source pool, then extra assignments that resolve; missing keys,
malformed descriptors and unresolvable assignments are skipped. -/
def buildSubset (lookupPool : String → Option DatasetCollection)
    (pool : DatasetCollection) (g : DatasetGroup) : DatasetCollection :=
  ⟨buildSubsetExtras lookupPool g.extra_assignments (buildSubsetBase pool g.keys)⟩

/-- `ColourimetryPipeline.build_groups`: an unknown source pool raises
`ValueError`; otherwise each group's subset is stored under its name. -/
def build_groups : List DatasetGroup → PipelineState → Except String PipelineState
  | [], s => .ok s
  | g :: rest, s =>
    match sourcePools s g.source with
    | none => .error ("Unknown dataset source '" ++ g.source ++ "'")
    | some pool =>
      build_groups rest
        (withGroups s (dictSet s.groups g.name (buildSubset (sourcePools s) pool g)))

/-- Python `reference_lab or self.config.reference_lab` (`None` and the
empty list are falsy). -/
def resolveRef {Illum : Type} (reference_lab : Option (List ℝ))
    (cfg : NotebookConfig Illum) : List ℝ :=
  match reference_lab with
  | none => cfg.reference_lab
  | some [] => cfg.reference_lab
  | some l => l

/-- Illuminant resolution in `analyse_group`: a string is looked up in
the configured table (`KeyError` when absent); a spectral-distribution
object is used directly. -/
def resolveIlluminant {Illum : Type} (cfg : NotebookConfig Illum) :
    String ⊕ Illum → Except String Illum
  | .inl nm =>
    match alookup cfg.illuminants nm with
    | some sd => .ok sd
    | none => .error ("Illuminant '" ++ nm ++ "' not defined")
  | .inr sd => .ok sd

/-- The per-entry `ColourResult` built inside the analysis loops. -/
noncomputable def mkColourResult {Illum : Type} (be : ColourBackend Illum)
    (sd : Illum) (ref : List ℝ) (absorbance : Bool) (k : String)
    (e : DatasetEntry) : ColourResult :=
  let spectrum := e.record.as_pairs (if absorbance then "absorbance" else "transmittance")
  let metrics := be.computeMetrics spectrum absorbance sd ref
  let d := computeColourDistances metrics.rgb
  { name := k
    metrics := metrics
    decolouring_percentage := d.1
    white_distance := d.2 }

/-- `ColourimetryPipeline.analyse_group`: unknown group or illuminant
name raises `KeyError`; otherwise every entry's result is stored both in
the returned mapping and in the pipeline's accumulating `results`. -/
noncomputable def analyse_group {Illum : Type} (be : ColourBackend Illum)
    (cfg : NotebookConfig Illum) (group_name : String)
    (illuminant : String ⊕ Illum) (absorbance : Bool)
    (reference_lab : Option (List ℝ)) (s : PipelineState) :
    Except String (List (String × ColourResult) × PipelineState) :=
  match alookup s.groups group_name with
  | none => .error ("Group '" ++ group_name ++ "' has not been built")
  | some group =>
    let ref := resolveRef reference_lab cfg
    match resolveIlluminant cfg illuminant with
    | .error e => .error e
    | .ok sd =>
      let final := group.entries.foldl (fun acc p =>
        let result := mkColourResult be sd ref absorbance p.1 p.2
        (dictSet acc.1 p.1 result, dictSet acc.2 p.1 result)) ([], s.results)
      .ok (final.1, { s with results := final.2 })

/-- `ColourimetryPipeline.analyse_blackbody`: like `analyse_group` with
a synthetic blackbody illuminant, but the per-sample results are only
returned, never written into `self.results`. -/
noncomputable def analyse_blackbody {Illum : Type} (be : ColourBackend Illum)
    (cfg : NotebookConfig Illum) (group_name : String) (temperature : ℝ)
    (absorbance : Bool) (reference_lab : Option (List ℝ)) (s : PipelineState) :
    Except String (List (String × ColourResult) × PipelineState) :=
  match alookup s.groups group_name with
  | none => .error ("Group '" ++ group_name ++ "' has not been built")
  | some group =>
    let ref := resolveRef reference_lab cfg
    let sd := be.blackbody temperature
    let out := group.entries.foldl (fun acc p =>
      dictSet acc p.1 (mkColourResult be sd ref absorbance p.1 p.2)) []
    .ok (out, s)

/-! ### Claim C7 -/

lemma zipWith_sub_sq_comm (A : List ℝ) : ∀ B : List ℝ,
    (A.zipWith (fun a b => a - b) B).map (fun d => d ^ 2) =
    (B.zipWith (fun a b => a - b) A).map (fun d => d ^ 2) := by
  induction A with
  | nil => intro B; cases B <;> rfl
  | cons a A' ih =>
    intro B
    cases B with
    | nil => rfl
    | cons b B' =>
      simp only [List.zipWith_cons_cons, List.map_cons, ih B']
      congr 1
      ring

/-- C7: `delta_e` is symmetric and equals the Euclidean distance in full
L*a*b* space, and `delta_c` is `delta_e` of the 2D (a*, b*)
projections. -/
theorem delta_e_symm_delta_c_projection :
    (∀ A B : List ℝ, delta_e A B = delta_e B A) ∧
    (∀ A B : List ℝ, delta_c A B = delta_e (slice13 A) (slice13 B)) ∧
    (∀ a1 a2 a3 b1 b2 b3 : ℝ,
      delta_e [a1, a2, a3] [b1, b2, b3] =
        Real.sqrt ((a1 - b1) ^ 2 + (a2 - b2) ^ 2 + (a3 - b3) ^ 2) ∧
      delta_c [a1, a2, a3] [b1, b2, b3] =
        Real.sqrt ((a2 - b2) ^ 2 + (a3 - b3) ^ 2)) := by
  refine ⟨fun A B => ?_, fun A B => rfl, fun a1 a2 a3 b1 b2 b3 => ⟨?_, ?_⟩⟩
  · unfold delta_e
    rw [zipWith_sub_sq_comm]
  · simp [delta_e]
    congr 1
    ring
  · simp [delta_c, delta_e, slice13]

/-! ### Claim C8 -/

/-- C8: the derived scores follow the fixed formulas with
`reference_rgb = (68, 77, 55) / 255` (whose sum is `200 / 255`), and
`rgb = (1, 1, 1)` yields decolouring `100` and white distance `0`. -/
theorem colour_distances_formulas :
    (∀ r g b : ℝ, computeColourDistances [r, g, b] =
      ((r + g + b - 200 / 255) / (3 - 200 / 255) * 100,
       (1 - (r + g + b) / 3) * 100)) ∧
    computeColourDistances [1, 1, 1] = (100, 0) := by
  constructor
  · intro r g b
    simp only [computeColourDistances, List.sum_cons, List.sum_nil, List.length_cons,
      List.length_nil]
    norm_num
    constructor
    · ring_nf
    · ring_nf
  · simp only [computeColourDistances, List.sum_cons, List.sum_nil, List.length_cons,
      List.length_nil]
    norm_num

/-! ### Claim C6 -/

/-- C6: `spectrum_to_xyz` integrates only the wavelengths inside
`[360, 800]` (pre-filtering the input is a no-op, i.e. out-of-range
pairs are silently dropped), divides the raw tristimulus by 100, and
returns an rgb triple clipped into `[0, 1]`, for every colour-library
backend. -/
theorem spectrum_to_xyz_drops_scales_clips :
    (∀ (F : List (ℚ × ℝ) → ℝ × ℝ × ℝ) (G H : ℝ × ℝ × ℝ → ℝ × ℝ × ℝ)
      (sp : List (ℚ × ℝ)) (ab : Bool),
      spectrum_to_xyz F G H (sp.filter inIntegrationRange) ab =
        spectrum_to_xyz F G H sp ab) ∧
    (∀ (F : List (ℚ × ℝ) → ℝ × ℝ × ℝ) (G H : ℝ × ℝ × ℝ → ℝ × ℝ × ℝ)
      (sp : List (ℚ × ℝ)) (ab : Bool),
      0 ≤ (spectrum_to_xyz F G H sp ab).1.1 ∧ (spectrum_to_xyz F G H sp ab).1.1 ≤ 1 ∧
      0 ≤ (spectrum_to_xyz F G H sp ab).1.2.1 ∧ (spectrum_to_xyz F G H sp ab).1.2.1 ≤ 1 ∧
      0 ≤ (spectrum_to_xyz F G H sp ab).1.2.2 ∧ (spectrum_to_xyz F G H sp ab).1.2.2 ≤ 1) ∧
    (∀ (F : List (ℚ × ℝ) → ℝ × ℝ × ℝ) (G H : ℝ × ℝ × ℝ → ℝ × ℝ × ℝ)
      (sp : List (ℚ × ℝ)) (ab : Bool),
      (spectrum_to_xyz F G H sp ab).2.2 =
        ((F (transmittanceSd sp ab)).1 / 100, (F (transmittanceSd sp ab)).2.1 / 100,
         (F (transmittanceSd sp ab)).2.2 / 100)) := by
  have hclip : ∀ x : ℝ, 0 ≤ clip01 x ∧ clip01 x ≤ 1 := fun x =>
    ⟨le_min (le_max_right x 0) zero_le_one, min_le_right _ _⟩
  refine ⟨fun F G H sp ab => ?_, fun F G H sp ab => ?_, fun F G H sp ab => rfl⟩
  · unfold spectrum_to_xyz transmittanceSd
    rw [List.filter_filter]
    simp
  · exact ⟨(hclip _).1, (hclip _).2, (hclip _).1, (hclip _).2, (hclip _).1, (hclip _).2⟩

/-! ### Claim C9 -/

lemma clip01_idem (x : ℝ) : clip01 (clip01 x) = clip01 x := by
  unfold clip01
  have h0 : 0 ≤ min (max x 0) 1 := le_min (le_max_right x 0) zero_le_one
  rw [max_eq_left h0, min_eq_left (min_le_right _ 1)]

lemma pyRound_intCast (n : ℤ) : pyRound ((n : ℤ) : ℝ) = n := by
  unfold pyRound
  rw [Int.fract_intCast, if_neg (by norm_num), round_intCast]

lemma foldl_append_length : ∀ (l : List String) (s : String),
    (l.foldl (fun r t => r ++ t) s).length = s.length + (l.map String.length).sum := by
  intro l
  induction l with
  | nil => intro s; simp
  | cons a as ih =>
    intro s
    rw [List.foldl_cons, ih (s ++ a), String.length_append, List.map_cons,
      List.sum_cons]
    ring

lemma length_join_strings (l : List String) :
    (String.join l).length = (l.map String.length).sum := by
  rw [show String.join l = l.foldl (fun r t => r ++ t) "" from rfl,
    foldl_append_length]
  simp

/-- C9: `rgb_to_hex` clips each channel to `[0, 1]` (clipping is
idempotent, so pre-clipped input gives the same string), rounds the
255-scaled channel to a nearest integer, renders two lowercase hex
digits per channel after a leading `#`, and maps `(1, 0, 0)` to
`"#ff0000"` and `(0, 0, 0)` to `"#000000"`. -/
theorem rgb_to_hex_format :
    (∀ rgb : List ℝ, rgb_to_hex (rgb.map clip01) = rgb_to_hex rgb) ∧
    (∀ x : ℝ, |x - (pyRound x : ℝ)| ≤ 1 / 2) ∧
    (∀ rgb : List ℝ, (rgb_to_hex rgb).length = 1 + 2 * rgb.length) ∧
    rgb_to_hex [1, 0, 0] = "#ff0000" ∧ rgb_to_hex [0, 0, 0] = "#000000" := by
  have hc1 : pyRound (clip01 (1 : ℝ) * 255) = 255 := by
    have h : clip01 (1 : ℝ) * 255 = ((255 : ℤ) : ℝ) := by
      unfold clip01
      norm_num
    rw [h, pyRound_intCast]
  have hc0 : pyRound (clip01 (0 : ℝ) * 255) = 0 := by
    have h : clip01 (0 : ℝ) * 255 = ((0 : ℤ) : ℝ) := by
      unfold clip01
      norm_num
    rw [h, pyRound_intCast]
  refine ⟨fun rgb => ?_, fun x => ?_, fun rgb => ?_, ?_, ?_⟩
  · unfold rgb_to_hex
    rw [List.map_map]
    have h : ((fun v => fmt02x (pyRound (clip01 v * 255)).toNat) ∘ clip01) =
        (fun v => fmt02x (pyRound (clip01 v * 255)).toNat) := by
      funext v
      simp [Function.comp, clip01_idem]
    rw [h]
  · unfold pyRound
    by_cases hf : Int.fract x = 1 / 2
    · by_cases he : ⌊x⌋ % 2 = 0
      · rw [if_pos hf, if_pos he, Int.self_sub_floor, hf]
        rw [abs_of_nonneg (by norm_num)]
      · rw [if_pos hf, if_neg he]
        push_cast
        have h2 : x - ((⌊x⌋ : ℝ) + 1) = Int.fract x - 1 := by
          rw [Int.fract]
          ring
        rw [h2, hf, show (1 : ℝ) / 2 - 1 = -(1 / 2) by norm_num, abs_neg,
          abs_of_nonneg (by norm_num)]
    · rw [if_neg hf]
      exact abs_sub_round x
  · unfold rgb_to_hex
    rw [String.length_append, length_join_strings, List.map_map]
    have h2 : ∀ l : List ℝ, (l.map (String.length ∘ fun v =>
        fmt02x (pyRound (clip01 v * 255)).toNat)).sum = 2 * l.length := by
      intro l
      induction l with
      | nil => rfl
      | cons a as ih =>
        rw [List.map_cons, List.sum_cons, ih, List.length_cons,
          show (String.length ∘ fun v =>
            fmt02x (pyRound (clip01 v * 255)).toNat) a = 2 from rfl]
        ring
    rw [h2]
    rfl
  · unfold rgb_to_hex
    simp only [List.map_cons, List.map_nil, hc1, hc0]
    rfl
  · unfold rgb_to_hex
    simp only [List.map_cons, List.map_nil, hc0]
    rfl

/-! ### Claim C5 -/

lemma parseAbsorbances_length (mode : SpcMode) (amps : List ℝ) :
    (parseAbsorbances mode amps).length = amps.length := by
  cases mode <;> simp [parseAbsorbances]

lemma parseTransmittances_length (mode : SpcMode) (amps : List ℝ) :
    (parseTransmittances mode amps).length = amps.length := by
  cases mode <;> simp [parseTransmittances]

lemma parseTriples_map_fst (mode : SpcMode) (ws : List ℚ) (amps : List ℝ)
    (hlen : ws.length = amps.length) :
    (parseTriples mode ws amps).map (fun t => t.1) = ws := by
  unfold parseTriples
  apply List.map_fst_zip
  rw [List.length_zip, parseAbsorbances_length, parseTransmittances_length, hlen]
  simp

lemma mem_sortedTriples (mode : SpcMode) (ws : List ℚ) (amps : List ℝ)
    (t : ℚ × ℝ × ℝ) : t ∈ sortedTriples mode ws amps ↔
      t ∈ (parseTriples mode ws amps).filter wavelengthSelector :=
  (List.perm_insertionSort (fun t t' : ℚ × ℝ × ℝ => t.1 ≤ t'.1)
    ((parseTriples mode ws amps).filter wavelengthSelector)).mem_iff

/-- C5: `SpcFileParser.parse` keeps exactly the samples with
integer-valued wavelength inside `[250, 800]`, sorted ascending, and a
record with wavelengths `{249, 250, 400, 800, 801}` retains exactly
`{250, 400, 800}`. -/
theorem parse_filters_integer_wavelengths :
    (∀ (mode : SpcMode) (ws : List ℚ) (amps : List ℝ), ws.length = amps.length →
      (SpcFileParser.parse mode ws amps).wavelengths.Sorted (· ≤ ·) ∧
      ∀ w : ℚ, w ∈ (SpcFileParser.parse mode ws amps).wavelengths ↔
        w ∈ ws ∧ w.den = 1 ∧ 250 ≤ w ∧ w ≤ 800) ∧
    (SpcFileParser.parse .A [249, 250, 400, 800, 801]
      [1, 1, 1, 1, 1]).wavelengths = [250, 400, 800] := by
  constructor
  · intro mode ws amps hlen
    constructor
    · haveI : IsTotal (ℚ × ℝ × ℝ) (fun t t' => t.1 ≤ t'.1) :=
        ⟨fun a b => le_total a.1 b.1⟩
      haveI : IsTrans (ℚ × ℝ × ℝ) (fun t t' => t.1 ≤ t'.1) :=
        ⟨fun a b c hab hbc => le_trans hab hbc⟩
      exact List.Pairwise.map _ (fun a b hab => hab)
        (List.sorted_insertionSort (fun (t t' : ℚ × ℝ × ℝ) => t.1 ≤ t'.1)
          ((parseTriples mode ws amps).filter wavelengthSelector))
    · intro w
      constructor
      · intro hw
        rcases List.mem_map.mp hw with ⟨t, ht, rfl⟩
        rw [mem_sortedTriples] at ht
        rcases List.mem_filter.mp ht with ⟨htr, hsel⟩
        unfold wavelengthSelector at hsel
        refine ⟨?_, of_decide_eq_true hsel⟩
        rw [← parseTriples_map_fst mode ws amps hlen]
        exact List.mem_map_of_mem _ htr
      · rintro ⟨hw, hden, h1, h2⟩
        rw [← parseTriples_map_fst mode ws amps hlen] at hw
        rcases List.mem_map.mp hw with ⟨t, ht, rfl⟩
        apply List.mem_map_of_mem
        rw [mem_sortedTriples]
        exact List.mem_filter.mpr ⟨ht, decide_eq_true ⟨hden, h1, h2⟩⟩
  · decide

/-- C5 witness: the general part of the theorem applied at the concrete
record of the claim. -/
theorem parse_filters_integer_wavelengths_witness :
    (SpcFileParser.parse .A [249, 250, 400, 800, 801]
      [1, 1, 1, 1, 1]).wavelengths.Sorted (· ≤ ·) ∧
    ∀ w : ℚ, w ∈ (SpcFileParser.parse .A [249, 250, 400, 800, 801]
      [1, 1, 1, 1, 1]).wavelengths ↔
        w ∈ [249, 250, 400, 800, 801] ∧ w.den = 1 ∧ 250 ≤ w ∧ w ≤ 800 :=
  parse_filters_integer_wavelengths.1 .A [249, 250, 400, 800, 801]
    [1, 1, 1, 1, 1] (by decide)

/-! ### Claim C1 -/

lemma getD_map_range {α : Type} (n : ℕ) (f : ℕ → α) (i : ℕ) (d : α) (h : i < n) :
    ((List.range n).map f).getD i d = f i := by
  rw [List.getD_eq_getElem?_getD, List.getElem?_map, List.getElem?_range h]
  rfl

lemma getD_map {α β : Type} (l : List α) (f : α → β) (i : ℕ) (d : α) (d' : β)
    (h : i < l.length) : (l.map f).getD i d' = f (l.getD i d) := by
  rw [List.getD_eq_getElem?_getD, List.getElem?_map, List.getElem?_eq_getElem h,
    List.getD_eq_getElem?_getD, List.getElem?_eq_getElem h]
  rfl

lemma getD_mem {α : Type} (l : List α) (i : ℕ) (d : α) (h : i < l.length) :
    l.getD i d ∈ l := by
  rw [List.getD_eq_getElem?_getD, List.getElem?_eq_getElem h]
  exact List.getElem_mem h

lemma groupByRoot_fold_aux (sep r : String) :
    ∀ (l : List (String × DatasetEntry)) (es : List DatasetEntry),
      (∀ p ∈ l, rootOf sep p.1 = r) →
      l.foldl (fun acc p => groupInsert acc (rootOf sep p.1) p.2) [(r, es)] =
        [(r, es ++ l.map Prod.snd)] := by
  intro l
  induction l with
  | nil =>
    intro es _
    simp
  | cons p rest ih =>
    intro es hr
    simp only [List.foldl_cons]
    rw [hr p (List.mem_cons_self p rest)]
    have h2 : groupInsert [(r, es)] r p.2 = [(r, es ++ [p.2])] := by
      simp [groupInsert]
    rw [h2, ih (es ++ [p.2]) (fun q hq => hr q (List.mem_cons_of_mem _ hq))]
    simp

lemma groupByRoot_all_same (sep r : String) (l : List (String × DatasetEntry))
    (hroot : ∀ p ∈ l, rootOf sep p.1 = r) (hne : l ≠ []) :
    groupByRoot sep l = [(r, l.map Prod.snd)] := by
  cases l with
  | nil => exact absurd rfl hne
  | cons p rest =>
    unfold groupByRoot
    simp only [List.foldl_cons]
    rw [hroot p (List.mem_cons_self p rest),
      show groupInsert [] r p.2 = [(r, [p.2])] from rfl,
      groupByRoot_fold_aux sep r rest [p.2]
        (fun q hq => hroot q (List.mem_cons_of_mem _ hq))]
    simp

lemma elementwiseMean_length {α : Type} [DivisionRing α] (rows : List (List α))
    (m : ℕ) (hne : rows ≠ []) (hlen : ∀ row ∈ rows, row.length = m) :
    (elementwiseMean rows).length = m := by
  cases rows with
  | nil => exact absurd rfl hne
  | cons r0 rest =>
    unfold elementwiseMean
    rw [List.length_map, List.length_range]
    exact hlen r0 (List.mem_cons_self _ _)

lemma elementwiseMean_getD {α : Type} [DivisionRing α] (rows : List (List α))
    (m i : ℕ) (hne : rows ≠ []) (hlen : ∀ row ∈ rows, row.length = m) (hi : i < m) :
    (elementwiseMean rows).getD i 0 =
      (rows.map (fun row => row.getD i 0)).sum / (rows.length : α) := by
  cases rows with
  | nil => exact absurd rfl hne
  | cons r0 rest =>
    unfold elementwiseMean
    rw [getD_map_range _ _ _ _ (by rw [hlen r0 (List.mem_cons_self _ _)]; exact hi)]

lemma averageGroup_eq_merge (es : List DatasetEntry) (h : 2 ≤ es.length) :
    averageGroup es = mergeEntries es := by
  cases es with
  | nil => simp at h
  | cons a es' =>
    cases es' with
    | nil => simp at h
    | cons b t => rfl

/-- The first replicate of the averaging example: transmittances
`[0.5, 0.5]`, absorbances `-log10(0.5) = log10 2`. -/
noncomputable def repEntry1 : DatasetEntry :=
  ⟨⟨[400, 500], [Real.logb 10 2, Real.logb 10 2], [1 / 2, 1 / 2]⟩, "transmittance", []⟩

/-- The second replicate of the averaging example: transmittances
`[0.1, 0.1]`, absorbances `-log10(0.1) = 1`. -/
noncomputable def repEntry2 : DatasetEntry :=
  ⟨⟨[400, 500], [1, 1], [1 / 10, 1 / 10]⟩, "transmittance", []⟩

/-- The two-replicate collection `{X#1, X#2}` of the averaging example. -/
noncomputable def repCollection : DatasetCollection :=
  ⟨[("X#1", repEntry1), ("X#2", repEntry2)]⟩

/-- C1: `averaged` merges entries sharing a replicate root into one
entry whose wavelengths and transmittances are the element-wise means
and whose absorbances are `-log10` of the (clip-floored) mean
transmittance; averaging transmittances `[0.5, 0.5]` and `[0.1, 0.1]`
gives mean `0.3` with absorbance `-log10 0.3`, which differs from the
mean `(log10 2 + 1) / 2` of the replicate absorbances. -/
theorem averaged_merges_replicates_in_transmittance :
    (∀ (sep r : String) (c : DatasetCollection) (mq m : ℕ),
      (∀ p ∈ c.entries, rootOf sep p.1 = r) →
      2 ≤ c.entries.length →
      (∀ p ∈ c.entries, p.2.record.wavelengths.length = mq) →
      (∀ p ∈ c.entries, p.2.record.transmittances.length = m) →
      ∃ e, (c.averaged sep).entries = [(r, e)] ∧
        e.record.transmittances.length = m ∧
        e.record.wavelengths.length = mq ∧
        (∀ i, i < m →
          e.record.transmittances.getD i 0 =
            (c.entries.map (fun p => p.2.record.transmittances.getD i 0)).sum /
              (c.entries.length : ℝ) ∧
          e.record.absorbances.getD i 0 =
            -Real.logb 10 (clipLow (e.record.transmittances.getD i 0))) ∧
        (∀ i, i < mq →
          e.record.wavelengths.getD i 0 =
            (c.entries.map (fun p => p.2.record.wavelengths.getD i 0)).sum /
              (c.entries.length : ℚ))) ∧
    (∃ e, (repCollection.averaged "#").entries = [("X", e)] ∧
      e.record.transmittances = [3 / 10, 3 / 10] ∧
      e.record.absorbances = [-Real.logb 10 (3 / 10), -Real.logb 10 (3 / 10)] ∧
      -Real.logb 10 ((3 : ℝ) / 10) ≠ (Real.logb 10 2 + 1) / 2) := by
  constructor
  · intro sep r c mq m hroot hlen hwq hwm
    have hne : c.entries ≠ [] := by
      intro h
      rw [h] at hlen
      simp at hlen
    have hav : (c.averaged sep).entries =
        [(r, averageGroup (c.entries.map Prod.snd))] := by
      unfold DatasetCollection.averaged
      rw [groupByRoot_all_same sep r c.entries hroot hne]
      rfl
    have heslen : 2 ≤ (c.entries.map Prod.snd).length := by
      rw [List.length_map]
      exact hlen
    have havg : averageGroup (c.entries.map Prod.snd) =
        mergeEntries (c.entries.map Prod.snd) := averageGroup_eq_merge _ heslen
    have hmapne : c.entries.map Prod.snd ≠ [] := by
      intro h
      rw [h] at heslen
      simp at heslen
    have hrowsne : (c.entries.map Prod.snd).map
        (fun e => e.record.transmittances) ≠ [] := by
      intro h
      exact hmapne (List.map_eq_nil_iff.mp h)
    have hrowsneq : (c.entries.map Prod.snd).map
        (fun e => e.record.wavelengths) ≠ [] := by
      intro h
      exact hmapne (List.map_eq_nil_iff.mp h)
    have hrowlenT : ∀ row ∈ (c.entries.map Prod.snd).map
        (fun e => e.record.transmittances), row.length = m := by
      intro row hrow
      rcases List.mem_map.mp hrow with ⟨e, he, rfl⟩
      rcases List.mem_map.mp he with ⟨p, hp, rfl⟩
      exact hwm p hp
    have hrowlenQ : ∀ row ∈ (c.entries.map Prod.snd).map
        (fun e => e.record.wavelengths), row.length = mq := by
      intro row hrow
      rcases List.mem_map.mp hrow with ⟨e, he, rfl⟩
      rcases List.mem_map.mp he with ⟨p, hp, rfl⟩
      exact hwq p hp
    refine ⟨mergeEntries (c.entries.map Prod.snd), by rw [hav, havg], ?_, ?_, ?_, ?_⟩
    · show (elementwiseMean _).length = m
      exact elementwiseMean_length _ m hrowsne hrowlenT
    · show (elementwiseMean _).length = mq
      exact elementwiseMean_length _ mq hrowsneq hrowlenQ
    · intro i hi
      have hT : (mergeEntries (c.entries.map Prod.snd)).record.transmittances.getD i 0
          = (c.entries.map (fun p => p.2.record.transmittances.getD i 0)).sum /
            (c.entries.length : ℝ) := by
        show (elementwiseMean _).getD i 0 = _
        rw [elementwiseMean_getD _ m i hrowsne hrowlenT hi]
        simp only [List.map_map, List.length_map, Function.comp_def]
      refine ⟨hT, ?_⟩
      show ((elementwiseMean _).map (fun v => -Real.logb 10 (clipLow v))).getD i 0 = _
      rw [getD_map _ _ _ 0 _ (by
        rw [elementwiseMean_length _ m hrowsne hrowlenT]
        exact hi)]
      rfl
    · intro i hi
      show (elementwiseMean _).getD i 0 = _
      rw [elementwiseMean_getD _ mq i hrowsneq hrowlenQ hi]
      simp only [List.map_map, List.length_map, Function.comp_def]
  · have hg : groupByRoot "#" repCollection.entries =
        [("X", [repEntry1, repEntry2])] := by
      have h1 : rootOf "#" "X#1" = "X" := by decide
      have h2 : rootOf "#" "X#2" = "X" := by decide
      show groupByRoot "#" [("X#1", repEntry1), ("X#2", repEntry2)] = _
      unfold groupByRoot
      simp only [List.foldl_cons, List.foldl_nil, h1, h2]
      rfl
    have hav : (repCollection.averaged "#").entries =
        [("X", mergeEntries [repEntry1, repEntry2])] := by
      unfold DatasetCollection.averaged
      rw [hg]
      rfl
    have hmean : elementwiseMean ([repEntry1, repEntry2].map
        (fun e => e.record.transmittances)) = [3 / 10, 3 / 10] := by
      show elementwiseMean [[(1:ℝ) / 2, 1 / 2], [1 / 10, 1 / 10]] = [3 / 10, 3 / 10]
      unfold elementwiseMean
      simp only [show List.range ([(1:ℝ) / 2, 1 / 2]).length = [0, 1] from by decide,
        List.map_cons, List.map_nil]
      norm_num [List.getD_cons_zero, List.getD_cons_succ]
    have hclip : clipLow ((3:ℝ) / 10) = 3 / 10 := by
      unfold clipLow
      rw [max_eq_left (by norm_num)]
    refine ⟨mergeEntries [repEntry1, repEntry2], hav, ?_, ?_, ?_⟩
    · exact hmean
    · show (elementwiseMean ([repEntry1, repEntry2].map
        (fun e => e.record.transmittances))).map (fun v => -Real.logb 10 (clipLow v)) = _
      rw [hmean]
      simp only [List.map_cons, List.map_nil, hclip]
    · intro heq
      have h3 : Real.logb 10 ((3:ℝ) / 10) = Real.logb 10 3 - 1 := by
        rw [Real.logb_div (by norm_num) (by norm_num),
          Real.logb_self_eq_one (by norm_num)]
      have h18 : Real.logb 10 2 + 2 * Real.logb 10 3 = Real.logb 10 18 := by
        rw [show (18:ℝ) = 2 * 3 ^ 2 by norm_num,
          Real.logb_mul (by norm_num) (by norm_num), Real.logb_pow]
        push_cast
        ring
      have hgt : (1:ℝ) < Real.logb 10 18 := by
        rw [show (1:ℝ) = Real.logb 10 10 from
          (Real.logb_self_eq_one (by norm_num)).symm]
        exact Real.logb_lt_logb (by norm_num) (by norm_num) (by norm_num)
      rw [h3] at heq
      linarith

/-- C1 witness: the general merging statement applied to the concrete
two-replicate collection of the claim. -/
theorem averaged_merges_replicates_witness :
    ∃ e, (repCollection.averaged "#").entries = [("X", e)] ∧
      e.record.transmittances.length = 2 ∧
      e.record.wavelengths.length = 2 ∧
      (∀ i, i < 2 →
        e.record.transmittances.getD i 0 =
          (repCollection.entries.map
            (fun p => p.2.record.transmittances.getD i 0)).sum /
            (repCollection.entries.length : ℝ) ∧
        e.record.absorbances.getD i 0 =
          -Real.logb 10 (clipLow (e.record.transmittances.getD i 0))) ∧
      (∀ i, i < 2 →
        e.record.wavelengths.getD i 0 =
          (repCollection.entries.map
            (fun p => p.2.record.wavelengths.getD i 0)).sum /
            (repCollection.entries.length : ℚ)) :=
  averaged_merges_replicates_in_transmittance.1 "#" "X" repCollection 2 2
    (by
      intro p hp
      rcases List.mem_cons.mp hp with rfl | hp2
      · decide
      rcases List.mem_cons.mp hp2 with rfl | hp3
      · decide
      · exact absurd hp3 (List.not_mem_nil _))
    (by decide)
    (by
      intro p hp
      rcases List.mem_cons.mp hp with rfl | hp2
      · rfl
      rcases List.mem_cons.mp hp2 with rfl | hp3
      · rfl
      · exact absurd hp3 (List.not_mem_nil _))
    (by
      intro p hp
      rcases List.mem_cons.mp hp with rfl | hp2
      · rfl
      rcases List.mem_cons.mp hp2 with rfl | hp3
      · rfl
      · exact absurd hp3 (List.not_mem_nil _))

/-! ### Claim C2 -/

/-- The spec's pairwise SpectralRecord invariant:
`transmittance = 10 ** (-absorbance)`. -/
def transInv (r : SpectralRecord) : Prop :=
  ∀ p ∈ r.absorbances.zip r.transmittances, p.2 = (10 : ℝ) ^ (-p.1)

lemma zip_self_map {α β : Type} (l : List α) (f : α → β) :
    l.zip (l.map f) = l.map (fun a => (a, f a)) := by
  induction l with
  | nil => rfl
  | cons a l' ih => simp [ih]

lemma zip_map_self {α β : Type} (l : List α) (f : α → β) :
    (l.map f).zip l = l.map (fun a => (f a, a)) := by
  induction l with
  | nil => rfl
  | cons a l' ih => simp [ih]

lemma parseTriples_snd_inv (mode : SpcMode) (ws : List ℚ) (amps : List ℝ)
    (hT : mode = SpcMode.T → ∀ x ∈ amps, (1e-12 : ℝ) ≤ x) :
    ∀ t ∈ parseTriples mode ws amps, t.2.2 = (10 : ℝ) ^ (-t.2.1) := by
  intro t ht
  have h2 := (List.of_mem_zip ht).2
  cases mode with
  | A =>
    rw [show (parseAbsorbances SpcMode.A amps).zip (parseTransmittances SpcMode.A amps)
      = amps.zip (amps.map (fun a => (10 : ℝ) ^ (-a))) from rfl, zip_self_map] at h2
    rcases List.mem_map.mp h2 with ⟨a, _, hae⟩
    rw [← hae]
  | T =>
    rw [show (parseAbsorbances SpcMode.T amps).zip (parseTransmittances SpcMode.T amps)
      = (amps.map (fun x => -Real.logb 10 (clipLow x))).zip amps from rfl,
      zip_map_self] at h2
    rcases List.mem_map.mp h2 with ⟨x, hx, hae⟩
    rw [← hae]
    show x = (10 : ℝ) ^ (-(-Real.logb 10 (clipLow x)))
    unfold clipLow
    rw [neg_neg, Real.rpow_logb (by norm_num) (by norm_num)
      (lt_of_lt_of_le (by norm_num) (le_max_right x 1e-12))]
    exact (max_eq_left (hT rfl x hx)).symm
  | R =>
    rw [show (parseAbsorbances SpcMode.R amps).zip (parseTransmittances SpcMode.R amps)
      = (amps.map (fun a => 1 - a)).zip ((amps.map (fun a => 1 - a)).map
        (fun a => (10 : ℝ) ^ (-a))) from rfl, zip_self_map] at h2
    rcases List.mem_map.mp h2 with ⟨a, _, hae⟩
    rw [← hae]

lemma groupInsert_entries {Q : DatasetEntry → Prop} :
    ∀ (acc : List (String × List DatasetEntry)) (r : String) (e : DatasetEntry),
      (∀ g ∈ acc, ∀ x ∈ g.2, Q x) → Q e →
      ∀ g ∈ groupInsert acc r e, ∀ x ∈ g.2, Q x := by
  intro acc
  induction acc with
  | nil =>
    intro r e _ he g hg x hx
    simp only [groupInsert, List.mem_singleton] at hg
    subst hg
    simp only [List.mem_singleton] at hx
    subst hx
    exact he
  | cons p rest ih =>
    intro r e hacc he g hg x hx
    obtain ⟨r', es⟩ := p
    simp only [groupInsert] at hg
    by_cases hpr : r' = r
    · rw [if_pos hpr] at hg
      rcases List.mem_cons.mp hg with rfl | hg2
      · rcases List.mem_append.mp hx with hx1 | hx2
        · exact hacc (r', es) (List.mem_cons_self _ _) x hx1
        · simp only [List.mem_singleton] at hx2
          subst hx2
          exact he
      · exact hacc g (List.mem_cons_of_mem _ hg2) x hx
    · rw [if_neg hpr] at hg
      rcases List.mem_cons.mp hg with rfl | hg2
      · exact hacc (r', es) (List.mem_cons_self _ _) x hx
      · exact ih r e (fun g' hg' => hacc g' (List.mem_cons_of_mem _ hg')) he g hg2 x hx

lemma groupByRoot_fold_entries {Q : DatasetEntry → Prop} (sep : String) :
    ∀ (l : List (String × DatasetEntry)) (acc : List (String × List DatasetEntry)),
      (∀ g ∈ acc, ∀ x ∈ g.2, Q x) → (∀ p ∈ l, Q p.2) →
      ∀ g ∈ l.foldl (fun acc p => groupInsert acc (rootOf sep p.1) p.2) acc,
        ∀ x ∈ g.2, Q x := by
  intro l
  induction l with
  | nil =>
    intro acc hacc _
    exact hacc
  | cons p rest ih =>
    intro acc hacc hl
    simp only [List.foldl_cons]
    exact ih _ (groupInsert_entries acc _ _ hacc (hl p (List.mem_cons_self _ _)))
      (fun q hq => hl q (List.mem_cons_of_mem _ hq))

lemma groupByRoot_entries {Q : DatasetEntry → Prop} (sep : String)
    (l : List (String × DatasetEntry)) (hl : ∀ p ∈ l, Q p.2) :
    ∀ g ∈ groupByRoot sep l, ∀ x ∈ g.2, Q x :=
  groupByRoot_fold_entries sep l [] (by simp) hl

lemma mean_lower_bound (rows : List (List ℝ)) (c : ℝ) (i : ℕ) (hne : rows ≠ [])
    (hall : ∀ row ∈ rows, c ≤ row.getD i 0) :
    c ≤ (rows.map (fun row => row.getD i 0)).sum / (rows.length : ℝ) := by
  have hpos : (0 : ℝ) < rows.length := by
    cases rows with
    | nil => exact absurd rfl hne
    | cons r0 rest =>
      rw [List.length_cons]
      exact_mod_cast Nat.succ_pos _
  rw [le_div_iff hpos]
  have h := List.card_nsmul_le_sum (rows.map (fun row => row.getD i 0)) c
    (fun x hx => by
      rcases List.mem_map.mp hx with ⟨row, hrow, rfl⟩
      exact hall row hrow)
  rw [List.length_map, nsmul_eq_mul] at h
  linarith

/-- C2 counterexample: in mode `T` an amplitude below the `1e-12` clip
floor (here a plain zero transmittance) breaks the claimed
`transmittance = 10 ** (-absorbance)` invariant: the parser stores
transmittance `0` but absorbance `-log10(1e-12) = 12`. -/
theorem parse_modeT_zero_transmittance_cex :
    ¬ transInv (SpcFileParser.parse .T [400] [(0 : ℝ)]) := by
  intro h
  have hsort : sortedTriples .T [400] [(0 : ℝ)] =
      [((400 : ℚ), (-Real.logb 10 (clipLow 0), (0 : ℝ)))] := by
    unfold sortedTriples parseTriples parseAbsorbances parseTransmittances
    simp only [List.map_cons, List.map_nil, List.zip_cons_cons, List.zip_nil_left]
    rw [List.filter_cons, if_pos (by decide), List.filter_nil]
    simp [List.insertionSort]
  have hmem : (-Real.logb 10 (clipLow 0), (0 : ℝ)) ∈
      (SpcFileParser.parse .T [400] [(0 : ℝ)]).absorbances.zip
      (SpcFileParser.parse .T [400] [(0 : ℝ)]).transmittances := by
    unfold SpcFileParser.parse
    rw [List.zip_map', hsort]
    simp
  have h0 := h _ hmem
  simp only at h0
  unfold clipLow at h0
  rw [neg_neg, Real.rpow_logb (by norm_num) (by norm_num)
    (lt_of_lt_of_le (by norm_num) (le_max_right _ _)),
    max_eq_right (by norm_num : (0 : ℝ) ≤ 1e-12)] at h0
  norm_num at h0

/-- C2 (amended): parsing preserves `transmittance = 10 ** (-absorbance)`
unconditionally in modes `A` and `R`, and in mode `T` whenever every
amplitude is at least the `1e-12` clip floor; replicate averaging
preserves it whenever the replicate transmittances stay at or above the
floor; and `-log10(10 ** (-A)) = A` recovers any absorbance `A ≥ 0`. -/
theorem parse_averaged_transmittance_invariant :
    (∀ (mode : SpcMode) (ws : List ℚ) (amps : List ℝ),
      (mode = SpcMode.T → ∀ x ∈ amps, (1e-12 : ℝ) ≤ x) →
      transInv (SpcFileParser.parse mode ws amps)) ∧
    (∀ (sep : String) (c : DatasetCollection) (m : ℕ),
      (∀ p ∈ c.entries, transInv p.2.record) →
      (∀ p ∈ c.entries, ∀ t ∈ p.2.record.transmittances, (1e-12 : ℝ) ≤ t) →
      (∀ p ∈ c.entries, p.2.record.transmittances.length = m) →
      ∀ q ∈ (c.averaged sep).entries, transInv q.2.record) ∧
    (∀ A : ℝ, 0 ≤ A → -Real.logb 10 ((10 : ℝ) ^ (-A)) = A) := by
  refine ⟨fun mode ws amps hT => ?_, fun sep c m hInv hFloor hLen => ?_, fun A _ => ?_⟩
  · intro p hp
    have hzip : (SpcFileParser.parse mode ws amps).absorbances.zip
        (SpcFileParser.parse mode ws amps).transmittances =
        (sortedTriples mode ws amps).map (fun t => (t.2.1, t.2.2)) := by
      unfold SpcFileParser.parse
      rw [List.zip_map']
    rw [hzip] at hp
    rcases List.mem_map.mp hp with ⟨t, ht, rfl⟩
    exact parseTriples_snd_inv mode ws amps hT t
      (List.mem_filter.mp ((mem_sortedTriples mode ws amps t).mp ht)).1
  · intro q hq
    unfold DatasetCollection.averaged at hq
    rcases List.mem_map.mp hq with ⟨g, hg, rfl⟩
    have hsub : ∀ x ∈ g.2, transInv x.record ∧
        (∀ t ∈ x.record.transmittances, (1e-12 : ℝ) ≤ t) ∧
        x.record.transmittances.length = m :=
      groupByRoot_entries sep c.entries
        (fun p hp => ⟨hInv p hp, hFloor p hp, hLen p hp⟩) g hg
    show transInv (averageGroup g.2).record
    cases hg2 : g.2 with
    | nil =>
      intro p hp
      simp only [averageGroup, mergeEntries, elementwiseMean] at hp
      simp at hp
    | cons a es' =>
      cases es' with
      | nil =>
        show transInv a.record
        exact (hsub a (hg2 ▸ List.mem_cons_self _ _)).1
      | cons b t =>
        show transInv (mergeEntries (a :: b :: t)).record
        intro p hp
        have hzip : (mergeEntries (a :: b :: t)).record.absorbances.zip
            (mergeEntries (a :: b :: t)).record.transmittances =
            (elementwiseMean ((a :: b :: t).map (fun e => e.record.transmittances))).map
              (fun v => (-Real.logb 10 (clipLow v), v)) :=
          zip_map_self (elementwiseMean ((a :: b :: t).map
            (fun e => e.record.transmittances))) (fun v => -Real.logb 10 (clipLow v))
        rw [hzip] at hp
        rcases List.mem_map.mp hp with ⟨v, hv, rfl⟩
        show v = (10 : ℝ) ^ (-(-Real.logb 10 (clipLow v)))
        have hsub' : ∀ x ∈ a :: b :: t, transInv x.record ∧
            (∀ s ∈ x.record.transmittances, (1e-12 : ℝ) ≤ s) ∧
            x.record.transmittances.length = m :=
          fun x hx => hsub x (hg2 ▸ hx)
        have hvge : (1e-12 : ℝ) ≤ v := by
          have hma : a.record.transmittances.length = m :=
            (hsub' a (List.mem_cons_self _ _)).2.2
          have hrows : (a :: b :: t).map (fun e => e.record.transmittances) =
              a.record.transmittances ::
                (b :: t).map (fun e => e.record.transmittances) := rfl
          rw [hrows] at hv
          unfold elementwiseMean at hv
          rcases List.mem_map.mp hv with ⟨i, hi, rfl⟩
          rw [List.mem_range, hma] at hi
          refine mean_lower_bound _ _ i (by simp) ?_
          intro row hrow
          rcases List.mem_cons.mp hrow with rfl | hrow2
          · exact (hsub' a (List.mem_cons_self _ _)).2.1 _
              (getD_mem _ i 0 (by rw [hma]; exact hi))
          · rcases List.mem_map.mp hrow2 with ⟨x, hx, rfl⟩
            have hx' := hsub' x (List.mem_cons_of_mem _ hx)
            exact hx'.2.1 _ (getD_mem _ i 0 (by rw [hx'.2.2]; exact hi))
        unfold clipLow
        rw [neg_neg, Real.rpow_logb (by norm_num) (by norm_num)
          (lt_of_lt_of_le (by norm_num) (le_max_right v 1e-12))]
        exact (max_eq_left hvge).symm
  · rw [Real.logb_rpow (by norm_num) (by norm_num), neg_neg]

/-- C2 witness: the amended invariant applied at a concrete mode-A
parse, a concrete singleton collection, and the absorbance 2. -/
theorem parse_averaged_transmittance_invariant_witness :
    transInv (SpcFileParser.parse .A [400] [(1 : ℝ)]) ∧
    (∀ q ∈ ((⟨[("X", ⟨⟨[400], [0], [1]⟩, "transmittance", []⟩)]⟩ :
        DatasetCollection).averaged "#").entries, transInv q.2.record) ∧
    -Real.logb 10 ((10 : ℝ) ^ (-(2 : ℝ))) = 2 := by
  refine ⟨parse_averaged_transmittance_invariant.1 .A [400] [1]
      (fun hmode => SpcMode.noConfusion hmode),
    parse_averaged_transmittance_invariant.2.1 "#" _ 1 ?_ ?_ ?_,
    parse_averaged_transmittance_invariant.2.2 2 (by norm_num)⟩
  · intro p hp
    simp only [List.mem_singleton] at hp
    subst hp
    intro q hq
    simp only [List.zip_cons_cons, List.zip_nil_left, List.mem_singleton] at hq
    subst hq
    rw [show -(0 : ℝ) = 0 by norm_num, Real.rpow_zero]
  · intro p hp
    simp only [List.mem_singleton] at hp
    subst hp
    intro s hs
    simp only [List.mem_singleton] at hs
    subst hs
    norm_num
  · intro p hp
    simp only [List.mem_singleton] at hp
    subst hp
    rfl

/-! ### Claim C4 -/

lemma buildSubset_base_lookup (pool : DatasetCollection) (ks : List String)
    (k : String) : ∀ acc : List (String × DatasetEntry),
    alookup (ks.foldl (fun acc k' =>
      match alookup pool.entries k' with
      | some e => dictSet acc k' e
      | none => acc) acc) k =
    if k ∈ ks ∧ (alookup pool.entries k).isSome then alookup pool.entries k
    else alookup acc k := by
  induction ks with
  | nil =>
    intro acc
    simp
  | cons k0 ks' ih =>
    intro acc
    simp only [List.foldl_cons]
    rw [ih]
    by_cases hk : k ∈ ks' ∧ (alookup pool.entries k).isSome
    · rw [if_pos hk, if_pos ⟨List.mem_cons_of_mem _ hk.1, hk.2⟩]
    · rw [if_neg hk]
      cases hp0 : alookup pool.entries k0 with
      | none =>
        simp only [hp0]
        by_cases hkk : k = k0
        · subst hkk
          rw [if_neg (fun hc => by rw [hp0] at hc; simp at hc)]
        · rw [if_neg (fun hc => hk ⟨(List.mem_cons.mp hc.1).resolve_left hkk, hc.2⟩)]
      | some e =>
        simp only [hp0]
        rw [alookup_dictSet]
        by_cases hkk : k = k0
        · subst hkk
          rw [if_pos rfl, if_pos ⟨List.mem_cons_self _ _, by rw [hp0]; rfl⟩, hp0]
        · rw [if_neg hkk,
            if_neg (fun hc => hk ⟨(List.mem_cons.mp hc.1).resolve_left hkk, hc.2⟩)]

lemma extras_fold_malformed (lookupPool : String → Option DatasetCollection) :
    ∀ (l : List (String × String)) (acc : List (String × DatasetEntry)),
    (∀ p ∈ l, parseDescriptor p.2 = none) →
    l.foldl (fun acc p =>
      match parseDescriptor p.2 with
      | none => acc
      | some sd =>
        match lookupPool sd.1 with
        | none => acc
        | some src =>
          match alookup src.entries sd.2 with
          | some e => dictSet acc p.1 e
          | none => acc) acc = acc := by
  intro l
  induction l with
  | nil =>
    intro acc _
    rfl
  | cons p rest ih =>
    intro acc hl
    simp only [List.foldl_cons, hl p (List.mem_cons_self _ _)]
    exact ih acc (fun q hq => hl q (List.mem_cons_of_mem _ hq))

/-- C4: unknown group and illuminant names in `analyse_group` and an
unknown source pool in `build_groups` raise named lookup errors, while a
group key missing from its source pool or a malformed extra-assignment
descriptor is skipped: `build_groups` still succeeds, the missing or
malformed entry is omitted, and keys found in the pool keep their
entries. -/
theorem pipeline_lookup_errors_and_omissions :
    (∀ (Illum : Type) (be : ColourBackend Illum) (cfg : NotebookConfig Illum)
      (gname : String) (ill : String ⊕ Illum) (ab : Bool)
      (rl : Option (List ℝ)) (s : PipelineState),
      alookup s.groups gname = none →
      analyse_group be cfg gname ill ab rl s =
        .error ("Group '" ++ gname ++ "' has not been built")) ∧
    (∀ (Illum : Type) (be : ColourBackend Illum) (cfg : NotebookConfig Illum)
      (gname nm : String) (ab : Bool) (rl : Option (List ℝ)) (s : PipelineState)
      (grp : DatasetCollection),
      alookup s.groups gname = some grp →
      alookup cfg.illuminants nm = none →
      analyse_group be cfg gname (Sum.inl nm) ab rl s =
        .error ("Illuminant '" ++ nm ++ "' not defined")) ∧
    (∀ (g : DatasetGroup) (rest : List DatasetGroup) (s : PipelineState),
      g.source ≠ "all" → g.source ≠ "averaged" →
      build_groups (g :: rest) s =
        .error ("Unknown dataset source '" ++ g.source ++ "'")) ∧
    (∀ (s : PipelineState) (g : DatasetGroup) (pool : DatasetCollection),
      sourcePools s g.source = some pool →
      build_groups [g] s = .ok (withGroups s
        (dictSet s.groups g.name (buildSubset (sourcePools s) pool g)))) ∧
    (∀ (lookupPool : String → Option DatasetCollection) (pool : DatasetCollection)
      (g : DatasetGroup), g.extra_assignments = [] → ∀ k : String,
      alookup (buildSubset lookupPool pool g).entries k =
        if k ∈ g.keys ∧ (alookup pool.entries k).isSome
        then alookup pool.entries k else none) ∧
    (∀ (lookupPool : String → Option DatasetCollection) (pool : DatasetCollection)
      (g : DatasetGroup),
      (∀ p ∈ g.extra_assignments, parseDescriptor p.2 = none) →
      buildSubset lookupPool pool g =
        buildSubset lookupPool pool { g with extra_assignments := [] }) := by
  refine ⟨?_, ?_, ?_, ?_, ?_, ?_⟩
  · intro Illum be cfg gname ill ab rl s h
    unfold analyse_group
    rw [h]
  · intro Illum be cfg gname nm ab rl s grp hg hnm
    simp only [analyse_group, hg, resolveIlluminant, hnm]
  · intro g rest s h1 h2
    unfold build_groups sourcePools
    rw [if_neg h1, if_neg h2]
  · intro s g pool hp
    unfold build_groups
    rw [hp]
    rfl
  · intro lookupPool pool g hext k
    unfold buildSubset buildSubsetExtras buildSubsetBase
    rw [hext]
    simp only [List.foldl_nil]
    rw [buildSubset_base_lookup]
    by_cases hk : k ∈ g.keys ∧ (alookup pool.entries k).isSome
    · rw [if_pos hk, if_pos hk]
    · rw [if_neg hk, if_neg hk]
      rfl
  · intro lookupPool pool g hmal
    unfold buildSubset buildSubsetExtras
    rw [extras_fold_malformed lookupPool g.extra_assignments _ hmal]
    rfl

/-- A colour-metrics bundle used to instantiate the abstract backend in
witnesses. -/
noncomputable def dummyMetrics : ColourMetrics := ⟨[], [], [], 0, 0, 0, 0, 0, 0⟩

/-- A trivial colour backend over the one-point illuminant type. -/
noncomputable def dummyBE : ColourBackend Unit :=
  ⟨fun _ _ _ _ => dummyMetrics, fun _ => ()⟩

/-- A configuration with no illuminants and an empty reference. -/
def dummyCfg : NotebookConfig Unit := ⟨[], []⟩

/-- A freshly constructed pipeline state. -/
def emptyState : PipelineState := ⟨[], ⟨[]⟩, ⟨[]⟩, [], []⟩

/-- A pipeline state holding one empty group named `"g"`. -/
def oneGroupState : PipelineState := ⟨[], ⟨[]⟩, ⟨[]⟩, [("g", ⟨[]⟩)], []⟩

/-- C4 witness: the error and omission behaviours at concrete inputs. -/
theorem pipeline_lookup_errors_and_omissions_witness :
    analyse_group dummyBE dummyCfg "g" (Sum.inl "D65") true none emptyState =
      .error ("Group '" ++ "g" ++ "' has not been built") ∧
    analyse_group dummyBE dummyCfg "g" (Sum.inl "D65") true none oneGroupState =
      .error ("Illuminant '" ++ "D65" ++ "' not defined") ∧
    build_groups [⟨"a", "raw", [], []⟩] emptyState =
      .error ("Unknown dataset source '" ++ "raw" ++ "'") ∧
    build_groups [⟨"a", "all", ["missing"], []⟩] emptyState =
      .ok (withGroups emptyState (dictSet emptyState.groups "a"
        (buildSubset (sourcePools emptyState) ⟨[]⟩ ⟨"a", "all", ["missing"], []⟩))) ∧
    (∀ k : String, alookup (buildSubset (sourcePools emptyState) ⟨[]⟩
        ⟨"a", "all", ["missing"], []⟩).entries k =
      if k ∈ ["missing"] ∧ (alookup ([] : List (String × DatasetEntry)) k).isSome
      then alookup ([] : List (String × DatasetEntry)) k else none) ∧
    buildSubset (sourcePools emptyState) ⟨[]⟩ ⟨"a", "all", [], [("tk", "nocolon")]⟩ =
      buildSubset (sourcePools emptyState) ⟨[]⟩ ⟨"a", "all", [], []⟩ :=
  ⟨pipeline_lookup_errors_and_omissions.1 Unit dummyBE dummyCfg "g" (Sum.inl "D65")
      true none emptyState rfl,
   pipeline_lookup_errors_and_omissions.2.1 Unit dummyBE dummyCfg "g" "D65" true
      none oneGroupState ⟨[]⟩ rfl rfl,
   pipeline_lookup_errors_and_omissions.2.2.1 ⟨"a", "raw", [], []⟩ [] emptyState
      (by decide) (by decide),
   pipeline_lookup_errors_and_omissions.2.2.2.1 emptyState
      ⟨"a", "all", ["missing"], []⟩ ⟨[]⟩ rfl,
   pipeline_lookup_errors_and_omissions.2.2.2.2.1 (sourcePools emptyState) ⟨[]⟩
      ⟨"a", "all", ["missing"], []⟩ rfl,
   pipeline_lookup_errors_and_omissions.2.2.2.2.2 (sourcePools emptyState) ⟨[]⟩
      ⟨"a", "all", [], [("tk", "nocolon")]⟩
      (by
        intro p hp
        simp only [List.mem_singleton] at hp
        subst hp
        decide)⟩

/-! ### Claim C10 -/

lemma oget_none_right {α : Type} (a : Option α) : oget a none = a := by
  cases a <;> rfl

lemma analyse_fold {Illum : Type} (be : ColourBackend Illum) (sd : Illum)
    (ref : List ℝ) (ab : Bool) :
    ∀ (entries : List (String × DatasetEntry))
      (o r0 : List (String × ColourResult)),
    entries.foldl (fun acc p =>
      let result := mkColourResult be sd ref ab p.1 p.2
      (dictSet acc.1 p.1 result, dictSet acc.2 p.1 result)) (o, r0) =
    (dictApply o (entries.map (fun p => (p.1, mkColourResult be sd ref ab p.1 p.2))),
     dictApply r0 (entries.map (fun p => (p.1, mkColourResult be sd ref ab p.1 p.2)))) := by
  intro entries
  induction entries with
  | nil =>
    intro o r0
    rfl
  | cons p rest ih =>
    intro o r0
    simp only [List.foldl_cons, List.map_cons, dictApply_cons]
    exact ih _ _

/-- C10: `analyse_blackbody` returns its per-sample results without
touching the pipeline state (the results map after the call equals the
map before it), while `analyse_group` merges every computed result into
the accumulating results map with last-write-wins per key. -/
theorem analyse_results_frame :
    (∀ (Illum : Type) (be : ColourBackend Illum) (cfg : NotebookConfig Illum)
      (gname : String) (temp : ℝ) (ab : Bool) (rl : Option (List ℝ))
      (s : PipelineState) (out : List (String × ColourResult)) (s' : PipelineState),
      analyse_blackbody be cfg gname temp ab rl s = .ok (out, s') →
      s'.results = s.results ∧ s' = s) ∧
    (∀ (Illum : Type) (be : ColourBackend Illum) (cfg : NotebookConfig Illum)
      (gname : String) (ill : String ⊕ Illum) (ab : Bool) (rl : Option (List ℝ))
      (s : PipelineState) (out : List (String × ColourResult)) (s' : PipelineState),
      analyse_group be cfg gname ill ab rl s = .ok (out, s') →
      ∀ k : String,
        alookup s'.results k = oget (alookup out k) (alookup s.results k)) := by
  constructor
  · intro Illum be cfg gname temp ab rl s out s' h
    unfold analyse_blackbody at h
    cases hg : alookup s.groups gname with
    | none =>
      rw [hg] at h
      exact absurd h (by simp)
    | some grp =>
      rw [hg] at h
      simp only [Except.ok.injEq, Prod.mk.injEq] at h
      rcases h with ⟨-, rfl⟩
      exact ⟨rfl, rfl⟩
  · intro Illum be cfg gname ill ab rl s out s' h k
    unfold analyse_group at h
    cases hg : alookup s.groups gname with
    | none =>
      rw [hg] at h
      exact absurd h (by simp)
    | some grp =>
      rw [hg] at h
      cases hi : resolveIlluminant cfg ill with
      | error e =>
        rw [hi] at h
        exact absurd h (by simp)
      | ok sd =>
        rw [hi] at h
        simp only [Except.ok.injEq, Prod.mk.injEq] at h
        rw [analyse_fold be sd (resolveRef rl cfg) ab grp.entries [] s.results] at h
        rcases h with ⟨hout, hs⟩
        have hres : s'.results = dictApply s.results
            (grp.entries.map (fun p =>
              (p.1, mkColourResult be sd (resolveRef rl cfg) ab p.1 p.2))) := by
          rw [← hs]
        rw [hres, ← hout, alookup_dictApply, alookup_dictApply]
        simp only [alookup]
        rw [oget_none_right]

/-- C10 witness: a concrete run over a pipeline state with one empty
group, under the trivial backend. -/
theorem analyse_results_frame_witness :
    (oneGroupState.results = oneGroupState.results ∧
      oneGroupState = oneGroupState) ∧
    (∀ k : String, alookup oneGroupState.results k =
      oget (alookup ([] : List (String × ColourResult)) k)
        (alookup oneGroupState.results k)) :=
  ⟨analyse_results_frame.1 Unit dummyBE dummyCfg "g" 5000 true none oneGroupState
      [] oneGroupState rfl,
   analyse_results_frame.2 Unit dummyBE dummyCfg "g" (Sum.inr ()) true none
      oneGroupState [] oneGroupState rfl⟩

/-! ### Claim C3 -/

/-- The writes `load_directories` performs on `raw_collections`. -/
def rawWrites : List (String × Option DatasetCollection) →
    List (String × DatasetCollection)
  | [] => []
  | (_, none) :: rest => rawWrites rest
  | (nm, some c) :: rest => (nm, c) :: rawWrites rest

/-- The writes `load_directories` performs on the `all_data` pool. -/
def allWrites : List (String × Option DatasetCollection) →
    List (String × DatasetEntry)
  | [] => []
  | (_, none) :: rest => allWrites rest
  | (_, some c) :: rest => c.entries ++ allWrites rest

lemma pipelineState_ext : ∀ x y : PipelineState,
    x.raw_collections = y.raw_collections → x.all_data = y.all_data →
    x.averaged_data = y.averaged_data → x.groups = y.groups →
    x.results = y.results → x = y := by
  intro x y
  cases x
  cases y
  intro h1 h2 h3 h4 h5
  simp only at h1 h2 h3 h4 h5
  subst h1
  subst h2
  subst h3
  subst h4
  subst h5
  rfl

lemma datasetCollection_ext : ∀ c d : DatasetCollection,
    c.entries = d.entries → c = d := by
  intro c d
  cases c
  cases d
  intro h
  simp only at h
  subst h
  rfl

lemma loadFold_spec : ∀ (dirs : List (String × Option DatasetCollection))
    (s : PipelineState),
    (loadFold dirs s).raw_collections =
      dictApply s.raw_collections (rawWrites dirs) ∧
    (loadFold dirs s).all_data.entries =
      dictApply s.all_data.entries (allWrites dirs) ∧
    (loadFold dirs s).averaged_data = s.averaged_data ∧
    (loadFold dirs s).groups = s.groups ∧
    (loadFold dirs s).results = s.results := by
  intro dirs
  induction dirs with
  | nil =>
    intro s
    exact ⟨rfl, rfl, rfl, rfl, rfl⟩
  | cons d rest ih =>
    intro s
    obtain ⟨nm, oc⟩ := d
    cases oc with
    | none => exact ih s
    | some c =>
      have hstep : loadFold ((nm, some c) :: rest) s =
          loadFold rest (loadStep s nm c) := rfl
      rw [hstep]
      obtain ⟨h1, h2, h3, h4, h5⟩ := ih (loadStep s nm c)
      refine ⟨?_, ?_, h3, h4, h5⟩
      · rw [h1, show rawWrites ((nm, some c) :: rest) = (nm, c) :: rawWrites rest
          from rfl, dictApply_cons]
        rfl
      · rw [h2, show allWrites ((nm, some c) :: rest) = c.entries ++ allWrites rest
          from rfl, dictApply_append]
        rfl

lemma buildAveraged_raw (s : PipelineState) :
    (buildAveraged s).raw_collections = s.raw_collections := by
  unfold buildAveraged
  cases s.all_data.entries <;> rfl

lemma buildAveraged_all (s : PipelineState) :
    (buildAveraged s).all_data = s.all_data := by
  unfold buildAveraged
  cases s.all_data.entries <;> rfl

lemma buildAveraged_of_nil (s : PipelineState) (h : s.all_data.entries = []) :
    buildAveraged s = s := by
  unfold buildAveraged
  rw [h]

lemma buildAveraged_of_ne (s : PipelineState) (h : s.all_data.entries ≠ []) :
    buildAveraged s = { s with averaged_data := s.all_data.averaged "#" } := by
  unfold buildAveraged
  cases hh : s.all_data.entries with
  | nil => exact absurd hh h
  | cons p l => rfl

lemma buildAveraged_idem (s : PipelineState) :
    buildAveraged (buildAveraged s) = buildAveraged s := by
  cases h : s.all_data.entries with
  | nil => rw [buildAveraged_of_nil s h, buildAveraged_of_nil s h]
  | cons p l =>
    have hne : s.all_data.entries ≠ [] := by
      rw [h]
      simp
    have hne2 : (buildAveraged s).all_data.entries ≠ [] := by
      rw [buildAveraged_all]
      exact hne
    rw [buildAveraged_of_ne (buildAveraged s) hne2, buildAveraged_of_ne s hne]

/-- The (name, subset) pair `build_groups` stores for one group. -/
def groupWrite (s : PipelineState) (g : DatasetGroup) :
    String × DatasetCollection :=
  (g.name, buildSubset (sourcePools s) ((sourcePools s g.source).getD ⟨[]⟩) g)

lemma sourcePools_withGroups (s : PipelineState)
    (gr : List (String × DatasetCollection)) :
    sourcePools (withGroups s gr) = sourcePools s := by
  funext tag
  rfl

lemma groupWrite_withGroups (s : PipelineState)
    (gr : List (String × DatasetCollection)) :
    groupWrite (withGroups s gr) = groupWrite s := by
  funext g
  unfold groupWrite
  rw [sourcePools_withGroups]

lemma build_groups_ok_spec : ∀ (gs : List DatasetGroup) (s s' : PipelineState),
    build_groups gs s = .ok s' →
    s' = withGroups s (dictApply s.groups (gs.map (groupWrite s))) ∧
    ∀ g ∈ gs, (sourcePools s g.source).isSome := by
  intro gs
  induction gs with
  | nil =>
    intro s s' h
    refine ⟨?_, by simp⟩
    injection h with h'
    rw [← h']
    rfl
  | cons g rest ih =>
    intro s s' h
    unfold build_groups at h
    cases hp : sourcePools s g.source with
    | none =>
      rw [hp] at h
      exact absurd h (by simp)
    | some pool =>
      rw [hp] at h
      rcases ih _ _ h with ⟨h1, h2⟩
      constructor
      · rw [h1, groupWrite_withGroups]
        rw [List.map_cons, dictApply_cons,
          show groupWrite s g = (g.name, buildSubset (sourcePools s) pool g) from by
            unfold groupWrite
            rw [hp]
            rfl]
        rfl
      · intro g' hg'
        rcases List.mem_cons.mp hg' with rfl | hg2
        · rw [hp]
          rfl
        · have hv := h2 g' hg2
          rwa [sourcePools_withGroups] at hv

lemma build_groups_ok_of_valid : ∀ (gs : List DatasetGroup) (s : PipelineState),
    (∀ g ∈ gs, (sourcePools s g.source).isSome) →
    build_groups gs s =
      .ok (withGroups s (dictApply s.groups (gs.map (groupWrite s)))) := by
  intro gs
  induction gs with
  | nil =>
    intro s _
    rfl
  | cons g rest ih =>
    intro s hv
    unfold build_groups
    cases hp : sourcePools s g.source with
    | none =>
      have := hv g (List.mem_cons_self _ _)
      rw [hp] at this
      exact absurd this (by simp)
    | some pool =>
      show build_groups rest
        (withGroups s (dictSet s.groups g.name (buildSubset (sourcePools s) pool g))) = _
      rw [ih _ (fun g' hg' => by
        rw [sourcePools_withGroups]
        exact hv g' (List.mem_cons_of_mem _ hg'))]
      rw [groupWrite_withGroups]
      rw [List.map_cons, dictApply_cons,
        show groupWrite s g = (g.name, buildSubset (sourcePools s) pool g) from by
          unfold groupWrite
          rw [hp]
          rfl]
      rfl

/-- The group config `⟨"a", "all", [], []⟩` used in the counterexample. -/
def groupCfgA : DatasetGroup := ⟨"a", "all", [], []⟩

/-- The group config `⟨"b", "all", [], []⟩` used in the counterexample. -/
def groupCfgB : DatasetGroup := ⟨"b", "all", [], []⟩

/-- The state after `build_groups [groupCfgA]` on a fresh pipeline. -/
def stateAfterA : PipelineState := ⟨[], ⟨[]⟩, ⟨[]⟩, [("a", ⟨[]⟩)], []⟩

/-- C3 counterexample: `build_groups` upserts into the existing groups
map instead of rebuilding it wholesale, so after building `[groupCfgA]`
and then `[groupCfgB]` the groups map still contains the name `"a"` from
the earlier call: its key list is `["a", "b"]`, not exactly the new
call's `["b"]`. -/
theorem build_groups_accumulates_names_cex :
    build_groups [groupCfgA] emptyState = .ok stateAfterA ∧
    (build_groups [groupCfgB] stateAfterA).map (fun s2 => keysOf s2.groups) =
      .ok ["a", "b"] ∧
    (["a", "b"] : List String) ≠ ["b"] :=
  ⟨rfl, rfl, by decide⟩

/-- C3 (amended): repeating `load_directories` with the same directory
list leaves the state exactly as a single call leaves it (raw, all and
averaged pools are rebuilt to the same values), and repeating
`build_groups` with the same group list is idempotent; however the
groups map is updated name by name, so group names written by earlier
calls with other names persist rather than being rebuilt wholesale. -/
theorem load_idempotent_build_groups_upsert :
    (∀ (dirs : List (String × Option DatasetCollection)) (s : PipelineState),
      (keysOf s.raw_collections).Nodup → (keysOf s.all_data.entries).Nodup →
      load_directories dirs (load_directories dirs s) = load_directories dirs s) ∧
    (∀ (gs : List DatasetGroup) (s s' : PipelineState),
      (keysOf s.groups).Nodup → build_groups gs s = .ok s' →
      build_groups gs s' = .ok s') := by
  constructor
  · intro dirs s hraw hall
    have hfold1 := loadFold_spec dirs s
    have hfold2 := loadFold_spec dirs (buildAveraged (loadFold dirs s))
    have ht2 : loadFold dirs (buildAveraged (loadFold dirs s)) =
        buildAveraged (loadFold dirs s) := by
      apply pipelineState_ext
      · rw [hfold2.1, buildAveraged_raw, hfold1.1]
        exact dictApply_replay _ _ hraw
      · apply datasetCollection_ext
        rw [hfold2.2.1, buildAveraged_all, hfold1.2.1]
        exact dictApply_replay _ _ hall
      · exact hfold2.2.2.1
      · exact hfold2.2.2.2.1
      · exact hfold2.2.2.2.2
    show buildAveraged (loadFold dirs (buildAveraged (loadFold dirs s))) =
      buildAveraged (loadFold dirs s)
    rw [ht2, buildAveraged_idem]
  · intro gs s s' hnd h
    rcases build_groups_ok_spec gs s s' h with ⟨hs', hvalid⟩
    have hvalid' : ∀ g ∈ gs, (sourcePools s' g.source).isSome := by
      intro g hg
      rw [hs', sourcePools_withGroups]
      exact hvalid g hg
    rw [build_groups_ok_of_valid gs s' hvalid']
    congr 1
    have hgw : groupWrite s' = groupWrite s := by
      rw [hs', groupWrite_withGroups]
    rw [hgw, hs']
    show withGroups _ (dictApply (dictApply s.groups (gs.map (groupWrite s)))
      (gs.map (groupWrite s))) = _
    rw [dictApply_replay _ _ hnd]
    rfl

/-- C3 witness: idempotence at a concrete directory list and a concrete
repeated `build_groups` call. -/
theorem load_idempotent_build_groups_upsert_witness :
    load_directories [("d", some ⟨[]⟩)]
      (load_directories [("d", some ⟨[]⟩)] emptyState) =
      load_directories [("d", some ⟨[]⟩)] emptyState ∧
    build_groups [groupCfgA] stateAfterA = .ok stateAfterA :=
  ⟨load_idempotent_build_groups_upsert.1 [("d", some ⟨[]⟩)] emptyState
      (by simp [emptyState, keysOf]) (by simp [emptyState, keysOf]),
   load_idempotent_build_groups_upsert.2 [groupCfgA] emptyState stateAfterA
      (by simp [emptyState, keysOf]) rfl⟩

end Colourimetry
